import Mathlib

/-!
Verification development for the EchoNote OpenAI service module.

The definitions below are a shallow embedding of the TypeScript source:
strings are modelled as lists of characters, the hosted HTTP API is
modelled as an oracle function passed in explicitly, and byte buffers are
lists of natural numbers below 256.  Numeric audio samples are modelled as
rationals; every arithmetic operation performed on them by the source
(max, min, multiplication by a power-of-two scale or by 32767, truncation
to an integer) is exact on the double-precision values the source
manipulates, so the rational model is faithful on all representable
sample values.
-/

namespace EchoNote

/-- Strings are modelled as lists of characters. -/
abbrev Text := List Char

/-- The per-call input ceiling used by generateSpeechFromText
(the source constant MAX_CHARS = 4000, a safe margin below 4096). -/
def MAX_CHARS : Nat := 4000

/-- The set of characters removed by the JavaScript String.prototype.trim:
WhiteSpace and LineTerminator code points. -/
def jsWhitespace (c : Char) : Bool :=
  (9 ≤ c.toNat && c.toNat ≤ 13) || c.toNat == 32 || c.toNat == 160 ||
  c.toNat == 5760 || (8192 ≤ c.toNat && c.toNat ≤ 8202) || c.toNat == 8232 ||
  c.toNat == 8233 || c.toNat == 8239 || c.toNat == 8287 || c.toNat == 12288 ||
  c.toNat == 65279

/-- JavaScript String.prototype.trim: remove leading and trailing
whitespace. -/
def trimJS (s : Text) : Text :=
  ((s.dropWhile jsWhitespace).reverse.dropWhile jsWhitespace).reverse

/-- JavaScript String.prototype.lastIndexOf with an explicit fromIndex:
the largest start position i with i at most the given bound at which pat
occurs in s (the whole pattern must fit inside s), or none.  The bound
argument is the fromIndex. -/
def lastIndexOfFrom (s pat : Text) : Nat → Option Nat
  | 0 => if pat.isPrefixOf s then some 0 else none
  | i + 1 =>
    if pat.isPrefixOf (s.drop (i + 1)) then some (i + 1)
    else lastIndexOfFrom s pat i

/-- The boundary search chain of generateSpeechFromText: try
period-space, question-space, exclamation-space, newline, comma-space,
then any space, each with lastIndexOf(pattern, MAX_CHARS), keeping the
first that is found. -/
def boundaryIndex (s : Text) : Option Nat :=
  match lastIndexOfFrom s ['.', ' '] MAX_CHARS with
  | some i => some i
  | none =>
    match lastIndexOfFrom s ['?', ' '] MAX_CHARS with
    | some i => some i
    | none =>
      match lastIndexOfFrom s ['!', ' '] MAX_CHARS with
      | some i => some i
      | none =>
        match lastIndexOfFrom s ['\n'] MAX_CHARS with
        | some i => some i
        | none =>
          match lastIndexOfFrom s [',', ' '] MAX_CHARS with
          | some i => some i
          | none => lastIndexOfFrom s [' '] MAX_CHARS

/-- The split index chosen by one iteration of the splitting loop: if no
boundary was found, or the boundary lies before one tenth of the ceiling
(MAX_CHARS times 0.1 is exactly 400), hard-chop at MAX_CHARS; otherwise
split one past the boundary so the separator character is kept in the
emitted chunk. -/
def splitIndexOf (s : Text) : Nat :=
  match boundaryIndex s with
  | none => MAX_CHARS
  | some i => if i < MAX_CHARS / 10 then MAX_CHARS else i + 1

/-- Fuel-indexed version of the splitting loop of generateSpeechFromText;
the fuel only serves to make the recursion structural and is irrelevant
once it is at least the length of the text. -/
def chunksGo : Nat → Text → List Text
  | _, [] => []
  | 0, _ :: _ => []
  | fuel + 1, c :: cs =>
    if (c :: cs).length ≤ MAX_CHARS then [c :: cs]
    else
      (c :: cs).take (splitIndexOf (c :: cs)) ::
        chunksGo fuel (trimJS ((c :: cs).drop (splitIndexOf (c :: cs))))

/-- The chunk list produced by the splitting loop of
generateSpeechFromText on a given text: while the remaining text exceeds
MAX_CHARS, emit the prefix up to the chosen split index and continue on
the trimmed remainder; a remainder of at most MAX_CHARS characters is
emitted whole and ends the loop. -/
def chunks (s : Text) : List Text := chunksGo s.length s

/-- One of the boundary patterns of the search chain occurs at position i
of s. -/
def boundaryPats : List Text := [['.', ' '], ['?', ' '], ['!', ' '], ['\n'], [',', ' '], [' ']]

/-- Whether some preferred boundary token starts at position i of s. -/
def isBoundaryTokenAt (s : Text) (i : Nat) : Bool :=
  boundaryPats.any (fun p => p.isPrefixOf (s.drop i))

/-- A binary result with its declared MIME type, as returned by
generateSpeechFromText. -/
structure Blob where
  bytes : List Nat
  type : String
  deriving Repr, DecidableEq

/-- Sequential dispatch of the chunk list: chunks that are empty after
trimming are skipped, every other chunk is sent to the fetch oracle in
order; the first failure stops the loop and is returned.  The returned
trace lists the chunks for which a call was actually issued, in order. -/
def dispatchChunks {ε : Type} (fetch : Text → Except ε (List Nat)) :
    List Text → List Text × Except ε (List (List Nat))
  | [] => ([], Except.ok [])
  | c :: cs =>
    if (trimJS c).isEmpty then dispatchChunks fetch cs
    else
      match fetch c with
      | Except.error e => ([c], Except.error e)
      | Except.ok part =>
        match dispatchChunks fetch cs with
        | (trace, Except.error e) => (c :: trace, Except.error e)
        | (trace, Except.ok parts) => (c :: trace, Except.ok (part :: parts))

/-- generateSpeechFromText, with the network modelled by the fetch
oracle: empty text returns an empty blob of type audio/mp3 at once with
no call issued; otherwise the text is split into chunks, the non-empty
chunks are dispatched sequentially, a failure is propagated, and on
success the binary parts are concatenated in order into one blob of type
audio/mpeg.  The first component of the result is the trace of chunks for
which a call was issued. -/
def generateSpeechFromText {ε : Type} (fetch : Text → Except ε (List Nat))
    (text : Text) : List Text × Except ε Blob :=
  if text.isEmpty then ([], Except.ok { bytes := [], type := "audio/mp3" })
  else
    match dispatchChunks fetch (chunks text) with
    | (trace, Except.error e) => (trace, Except.error e)
    | (trace, Except.ok parts) =>
      (trace, Except.ok { bytes := parts.flatten, type := "audio/mpeg" })

/-- A role-tagged chat turn. -/
structure ChatMessage where
  role : String
  content : String
  deriving Repr, DecidableEq

/-- A chat session: the growing message history plus the fixed system
prompt built from the transcript. -/
structure ChatSession where
  messages : List ChatMessage
  systemPrompt : String
  deriving Repr, DecidableEq

/-- The fallback used when the response carries no assistant content. -/
def assistantFallback : String := "I\x27m sorry, I couldn\x27t process that."

/-- The placeholder returned by sendMessageToChat when the call fails. -/
def chatErrorMessage : String :=
  "An error occurred while communicating with the assistant."

/-- Extraction of the assistant text from the optional response content;
a missing or empty string (falsy in JavaScript) selects the fallback. -/
def extractAssistant (c : Option String) : String :=
  match c with
  | some m => if m = "" then assistantFallback else m
  | none => assistantFallback

/-- The message list sent to the completion endpoint by sendMessageToChat:
the system prompt followed by the history, which already contains the
just-appended user message. -/
def sentMessages (chat : ChatSession) (message : String) : List ChatMessage :=
  ⟨"system", chat.systemPrompt⟩ :: (chat.messages ++ [⟨"user", message⟩])

/-- sendMessageToChat with the completion call modelled by the api
oracle: the user message is appended to the history first; on success the
assistant reply is appended as well and returned; on any failure the
placeholder string is returned and the history keeps the user message. -/
def sendMessageToChat {ε : Type} (api : List ChatMessage → Except ε (Option String))
    (chat : ChatSession) (message : String) : ChatSession × String :=
  let chat1 : ChatSession :=
    { chat with messages := chat.messages ++ [⟨"user", message⟩] }
  match api (⟨"system", chat1.systemPrompt⟩ :: chat1.messages) with
  | Except.error _ => (chat1, chatErrorMessage)
  | Except.ok c =>
    let assistantMessage := extractAssistant c
    ({ chat1 with messages := chat1.messages ++ [⟨"assistant", assistantMessage⟩] },
      assistantMessage)

/-- Outcome of the underlying fetch attempt, as distinguished by
openaiRequest: the abort timer fired before a response (an AbortError),
the fetch rejected with some other error carrying its own message, or a
response arrived with an ok flag, a status and an optional structured
error message parsed from the body. -/
inductive FetchOutcome : Type
  | aborted : FetchOutcome
  | failed : Text → FetchOutcome
  | response : Bool → Nat → Option Text → FetchOutcome

/-- The dedicated message raised by openaiRequest when the wait duration
elapses and the attempt is aborted. -/
def timeoutMessage : Text := "Request timed out. Check your connection.".data

/-- The generic status message used when a non-success response carries
no structured error message. -/
def apiErrorMessage (status : Nat) : Text :=
  "OpenAI API error: ".data ++ (Nat.repr status).data

/-- The message of the failure raised for a non-success response: the
service-reported message when present and non-empty (JavaScript or-else
on a falsy value), otherwise the generic status message. -/
def remoteErrorMessage (status : Nat) (em : Option Text) : Text :=
  match em with
  | some m => if m.isEmpty then apiErrorMessage status else m
  | none => apiErrorMessage status

/-- openaiRequest outcome normalisation: an abort becomes the dedicated
timeout failure, any other fetch rejection is re-raised unchanged, a
non-success response fails with the remote-derived message, and a success
returns the response to the caller. -/
def openaiRequest : FetchOutcome → Except Text Unit
  | FetchOutcome.aborted => Except.error timeoutMessage
  | FetchOutcome.failed m => Except.error m
  | FetchOutcome.response true _ _ => Except.ok ()
  | FetchOutcome.response false s em => Except.error (remoteErrorMessage s em)

/-- Byte codes of the characters of a header tag, as written by the
writeString helper of float32ArrayToWav via charCodeAt. -/
def asciiOf (s : String) : List Nat := s.data.map Char.toNat

/-- Little-endian encoding of a 16-bit value, as written by setUint16
and setInt16 with littleEndian set to true. -/
def le16 (n : Nat) : List Nat := [n % 256, n / 256 % 256]

/-- Little-endian encoding of a 32-bit value, as written by setUint32
with littleEndian set to true. -/
def le32 (n : Nat) : List Nat :=
  [n % 256, n / 256 % 256, n / 65536 % 256, n / 16777216 % 256]

/-- Truncation of a rational toward zero, the conversion applied by
setInt16 to its numeric argument. -/
def ratTrunc (q : ℚ) : Int := if 0 ≤ q then ⌊q⌋ else ⌈q⌉

/-- The clamp of a sample to the legal range, Math.max(-1, Math.min(1, x)). -/
def clampSample (x : ℚ) : ℚ := max (-1) (min 1 x)

/-- The 16-bit integer written for one sample: the clamped sample scaled
by 0x8000 when negative and by 0x7FFF otherwise, truncated to an
integer. -/
def intSampleOf (x : ℚ) : Int :=
  let sample := clampSample x
  ratTrunc (if sample < 0 then sample * 32768 else sample * 32767)

/-- The two bytes written for one sample by setInt16 in little-endian
order: the 16-bit two-complement encoding of the scaled sample. -/
def sampleBytes (x : ℚ) : List Nat := le16 ((intSampleOf x % 65536).toNat)

/-- float32ArrayToWav: the 44-byte RIFF/WAVE header for one channel of
16-bit PCM at the given sample rate, followed by the samples encoded in
little-endian order.  The DataView writes at offsets 0 to 43 are
contiguous, so the produced buffer is the concatenation below. -/
def float32ArrayToWav (audioData : List ℚ) (sampleRate : Nat) : List Nat :=
  let numChannels := 1
  let bitsPerSample := 16
  let bytesPerSample := bitsPerSample / 8
  let blockAlign := numChannels * bytesPerSample
  let byteRate := sampleRate * blockAlign
  let dataSize := audioData.length * bytesPerSample
  asciiOf "RIFF" ++ le32 (36 + dataSize) ++ asciiOf "WAVE" ++ asciiOf "fmt " ++
    le32 16 ++ le16 1 ++ le16 numChannels ++ le32 sampleRate ++ le32 byteRate ++
    le16 blockAlign ++ le16 bitsPerSample ++ asciiOf "data" ++ le32 dataSize ++
    (audioData.map sampleBytes).flatten

/-- Little-endian decoding of consecutive bytes, least significant
first. -/
def leVal : List Nat → Nat
  | [] => 0
  | b :: bs => b + 256 * leVal bs

/-- The unsigned 16-bit value declared at a byte offset of a buffer. -/
def readLE16 (l : List Nat) (off : Nat) : Nat := leVal ((l.drop off).take 2)

/-- The unsigned 32-bit value declared at a byte offset of a buffer. -/
def readLE32 (l : List Nat) (off : Nat) : Nat := leVal ((l.drop off).take 4)

/-- The signed 16-bit value declared at a byte offset of a buffer,
decoding the two-complement representation. -/
def readInt16LE (l : List Nat) (off : Nat) : Int :=
  if readLE16 l off < 32768 then (readLE16 l off : Int)
  else (readLE16 l off : Int) - 65536

/-- The 44 header bytes written by float32ArrayToWav before the sample
data, collected as one list; a derived form of the header used by the
proofs below, for n samples at the given sample rate. -/
def wavHeaderBytes (n sr : Nat) : List Nat :=
  asciiOf "RIFF" ++ le32 (36 + n * 2) ++ asciiOf "WAVE" ++ asciiOf "fmt " ++
    le32 16 ++ le16 1 ++ le16 1 ++ le32 sr ++ le32 (sr * 2) ++ le16 2 ++
    le16 16 ++ asciiOf "data" ++ le32 (n * 2)

/-- Counterexample text for the chunk-length ceiling: 4000 letters
followed by one newline. -/
def cexText1 : Text := List.replicate MAX_CHARS 'a' ++ ['\n']

/-- Counterexample text for the boundary-preference claim: an early
sentence end, a word of 447 letters, a space at position 450, then a long
word of 3700 letters crossing the ceiling offset. -/
def cexText2 : Text :=
  'a' :: '.' :: ' ' :: (List.replicate 447 'b' ++ ' ' :: List.replicate 3700 'c')

/-! Lemmas about the boundary search. -/

theorem isPrefixOf_cons_head {p : Char} {t l : Text}
    (h : (p :: t).isPrefixOf l = true) : l.head? = some p := by
  cases l with
  | nil => simp [List.isPrefixOf] at h
  | cons a l =>
    simp only [List.isPrefixOf, Bool.and_eq_true, beq_iff_eq] at h
    simp [h.1]

theorem lastIndexOfFrom_le {s pat : Text} :
    ∀ {n i : Nat}, lastIndexOfFrom s pat n = some i → i ≤ n := by
  intro n
  induction n with
  | zero =>
    intro i h
    simp only [lastIndexOfFrom] at h
    split at h
    · cases h; exact Nat.le_refl 0
    · cases h
  | succ n ih =>
    intro i h
    simp only [lastIndexOfFrom] at h
    split at h
    · cases h; exact Nat.le_refl _
    · exact Nat.le_trans (ih h) (Nat.le_succ n)

theorem lastIndexOfFrom_matches {s pat : Text} :
    ∀ {n i : Nat}, lastIndexOfFrom s pat n = some i →
      pat.isPrefixOf (s.drop i) = true := by
  intro n
  induction n with
  | zero =>
    intro i h
    simp only [lastIndexOfFrom] at h
    split at h
    · cases h; simpa using (by assumption : pat.isPrefixOf s = true)
    · cases h
  | succ n ih =>
    intro i h
    simp only [lastIndexOfFrom] at h
    split at h
    · cases h; assumption
    · exact ih h

theorem lastIndexOfFrom_eq_some_of {s pat : Text} :
    ∀ {n j : Nat}, j ≤ n → pat.isPrefixOf (s.drop j) = true →
      (∀ k, j < k → k ≤ n → pat.isPrefixOf (s.drop k) = false) →
      lastIndexOfFrom s pat n = some j := by
  intro n
  induction n with
  | zero =>
    intro j hj hocc _
    have hj0 : j = 0 := Nat.le_zero.mp hj
    subst hj0
    simp only [List.drop_zero] at hocc
    simp [lastIndexOfFrom, hocc]
  | succ n ih =>
    intro j hj hocc hno
    by_cases hje : j = n + 1
    · subst hje
      simp [lastIndexOfFrom, hocc]
    · have hj' : j ≤ n := Nat.lt_succ_iff.mp (Nat.lt_of_le_of_ne hj hje)
      have hfar : pat.isPrefixOf (s.drop (n + 1)) = false :=
        hno (n + 1) (Nat.lt_succ_of_le hj') (Nat.le_refl _)
      simp only [lastIndexOfFrom, hfar]
      simp only [Bool.false_eq_true, if_false]
      exact ih hj' hocc (fun k hk1 hk2 => hno k hk1 (Nat.le_succ_of_le hk2))

theorem lastIndexOfFrom_eq_none_of {s pat : Text} :
    ∀ {n : Nat}, (∀ k, k ≤ n → pat.isPrefixOf (s.drop k) = false) →
      lastIndexOfFrom s pat n = none := by
  intro n
  induction n with
  | zero =>
    intro hno
    have h0 := hno 0 (Nat.le_refl 0)
    simp only [List.drop_zero] at h0
    simp [lastIndexOfFrom, h0]
  | succ n ih =>
    intro hno
    have hn1 := hno (n + 1) (Nat.le_refl _)
    simp only [lastIndexOfFrom, hn1]
    simp only [Bool.false_eq_true, if_false]
    exact ih (fun k hk => hno k (Nat.le_succ_of_le hk))

theorem lastIndexOfFrom_none_of_not_mem {p : Char} {t s : Text} (hp : p ∉ s)
    (n : Nat) : lastIndexOfFrom s (p :: t) n = none := by
  apply lastIndexOfFrom_eq_none_of
  intro k _
  cases h : (p :: t).isPrefixOf (s.drop k) with
  | false => rfl
  | true =>
    exfalso
    have hh := isPrefixOf_cons_head h
    have hmem : p ∈ s.drop k := by
      cases hd : s.drop k with
      | nil => rw [hd] at hh; cases hh
      | cons a l =>
        rw [hd] at hh
        simp only [List.head?_cons, Option.some.injEq] at hh
        rw [hh] at *
        exact List.mem_cons_self p l
    exact hp (List.mem_of_mem_drop hmem)

theorem boundaryIndex_le {s : Text} {i : Nat} (h : boundaryIndex s = some i) :
    i ≤ MAX_CHARS := by
  unfold boundaryIndex at h
  repeat' split at h
  all_goals
    first
      | (cases h; exact lastIndexOfFrom_le (by assumption))
      | exact lastIndexOfFrom_le h

theorem boundaryIndex_matches {s : Text} {i : Nat}
    (h : boundaryIndex s = some i) : isBoundaryTokenAt s i = true := by
  unfold boundaryIndex at h
  repeat' split at h
  all_goals
    first
      | (cases h
         have hm := lastIndexOfFrom_matches (by assumption)
         simp [isBoundaryTokenAt, boundaryPats, hm])
      | (have hm := lastIndexOfFrom_matches h
         simp [isBoundaryTokenAt, boundaryPats, hm])

theorem boundaryIndex_eq_dot (s : Text) (i : Nat)
    (h : lastIndexOfFrom s ['.', ' '] MAX_CHARS = some i) :
    boundaryIndex s = some i := by
  unfold boundaryIndex
  rw [h]

theorem boundaryIndex_eq_newline (s : Text) (i : Nat)
    (h1 : lastIndexOfFrom s ['.', ' '] MAX_CHARS = none)
    (h2 : lastIndexOfFrom s ['?', ' '] MAX_CHARS = none)
    (h3 : lastIndexOfFrom s ['!', ' '] MAX_CHARS = none)
    (h4 : lastIndexOfFrom s ['\n'] MAX_CHARS = some i) :
    boundaryIndex s = some i := by
  unfold boundaryIndex
  rw [h1, h2, h3, h4]

theorem splitIndexOf_eq_of_ge (s : Text) (i : Nat)
    (hb : boundaryIndex s = some i) (hge : MAX_CHARS / 10 ≤ i) :
    splitIndexOf s = i + 1 := by
  have h : splitIndexOf s = if i < MAX_CHARS / 10 then MAX_CHARS else i + 1 := by
    unfold splitIndexOf
    rw [hb]
  rw [h, if_neg (by omega)]

theorem splitIndexOf_eq_of_lt (s : Text) (i : Nat)
    (hb : boundaryIndex s = some i) (hlt : i < MAX_CHARS / 10) :
    splitIndexOf s = MAX_CHARS := by
  have h : splitIndexOf s = if i < MAX_CHARS / 10 then MAX_CHARS else i + 1 := by
    unfold splitIndexOf
    rw [hb]
  rw [h, if_pos hlt]

theorem splitIndexOf_pos (s : Text) : 0 < splitIndexOf s := by
  unfold splitIndexOf
  split
  · decide
  · split
    · decide
    · exact Nat.succ_pos _

theorem splitIndexOf_le (s : Text) : splitIndexOf s ≤ MAX_CHARS + 1 := by
  unfold splitIndexOf
  split
  · exact Nat.le_succ _
  · split
    · exact Nat.le_succ _
    · exact Nat.succ_le_succ (boundaryIndex_le (by assumption))

/-! Lemmas about trimming. -/

theorem trimJS_sublist (s : Text) : List.Sublist (trimJS s) s := by
  have h1 : List.Sublist (s.dropWhile jsWhitespace) s := List.dropWhile_sublist _
  have h2 : List.Sublist ((s.dropWhile jsWhitespace).reverse.dropWhile jsWhitespace)
      (s.dropWhile jsWhitespace).reverse := List.dropWhile_sublist _
  have h3 : List.Sublist ((s.dropWhile jsWhitespace).reverse.dropWhile jsWhitespace).reverse
      (s.dropWhile jsWhitespace).reverse.reverse := List.reverse_sublist.mpr h2
  rw [List.reverse_reverse] at h3
  exact h3.trans h1

theorem trimJS_length_le (s : Text) : (trimJS s).length ≤ s.length :=
  (trimJS_sublist s).length_le

theorem filter_dropWhile_ws (s : Text) :
    (s.dropWhile jsWhitespace).filter (fun c => !jsWhitespace c) =
      s.filter (fun c => !jsWhitespace c) := by
  conv_rhs => rw [← List.takeWhile_append_dropWhile (p := jsWhitespace) (l := s)]
  rw [List.filter_append]
  have hnil : (s.takeWhile jsWhitespace).filter (fun c => !jsWhitespace c) = [] := by
    rw [List.filter_eq_nil_iff]
    intro a ha
    have := List.mem_takeWhile_imp ha
    simp [this]
  rw [hnil, List.nil_append]

theorem filter_trimJS (s : Text) :
    (trimJS s).filter (fun c => !jsWhitespace c) =
      s.filter (fun c => !jsWhitespace c) := by
  unfold trimJS
  rw [List.filter_reverse, filter_dropWhile_ws, List.filter_reverse,
    List.reverse_reverse, filter_dropWhile_ws]

/-! The unfolding equation of the splitting loop. -/

theorem chunksGo_fuel : ∀ (m : Nat) (s : Text), s.length ≤ m →
    chunksGo m s = chunksGo s.length s := by
  intro m
  induction m using Nat.strong_induction_on with
  | _ m ih =>
    intro s hs
    cases s with
    | nil => cases m <;> simp [chunksGo]
    | cons c cs =>
      cases m with
      | zero => simp at hs
      | succ m =>
        simp only [List.length_cons]
        simp only [chunksGo]
        split
        · rfl
        · have hpos := splitIndexOf_pos (c :: cs)
          set n := splitIndexOf (c :: cs) with hn
          set t := trimJS ((c :: cs).drop n) with ht
          have htlen : t.length ≤ cs.length := by
            have h1 : t.length ≤ ((c :: cs).drop n).length :=
              (trimJS_sublist _).length_le
            rw [List.length_drop, List.length_cons] at h1
            omega
          have hcs : cs.length ≤ m := by
            simp only [List.length_cons] at hs
            omega
          rw [ih m (Nat.lt_succ_self m) t (Nat.le_trans htlen hcs),
            ih cs.length (Nat.lt_succ_of_le hcs) t htlen]

theorem chunks_unfold (s : Text) : chunks s =
    if s.isEmpty then []
    else if s.length ≤ MAX_CHARS then [s]
    else s.take (splitIndexOf s) ::
      chunks (trimJS (s.drop (splitIndexOf s))) := by
  cases s with
  | nil => rfl
  | cons c cs =>
    rw [if_neg (by simp)]
    unfold chunks
    simp only [List.length_cons]
    simp only [chunksGo]
    simp only [List.length_cons]
    by_cases hle : cs.length + 1 ≤ MAX_CHARS
    · rw [if_pos hle, if_pos hle]
    · rw [if_neg hle, if_neg hle]
      have hpos := splitIndexOf_pos (c :: cs)
      set n := splitIndexOf (c :: cs) with hn
      set t := trimJS ((c :: cs).drop n) with ht
      have htlen : t.length ≤ cs.length := by
        have h1 : t.length ≤ ((c :: cs).drop n).length :=
          (trimJS_sublist _).length_le
        rw [List.length_drop, List.length_cons] at h1
        omega
      rw [chunksGo_fuel cs.length t htlen]

theorem chunks_remainder_len {s : Text} (hs : s ≠ []) :
    (trimJS (s.drop (splitIndexOf s))).length + 1 ≤ s.length := by
  have hpos := splitIndexOf_pos s
  have h1 : (trimJS (s.drop (splitIndexOf s))).length ≤ (s.drop (splitIndexOf s)).length :=
    trimJS_length_le _
  rw [List.length_drop] at h1
  have h2 : 0 < s.length := List.length_pos.mpr hs
  omega

theorem chunkLen_aux : ∀ (n : Nat) (s : Text), s.length ≤ n →
    ∀ c ∈ chunks s, c.length ≤ MAX_CHARS + 1 := by
  intro n
  induction n with
  | zero =>
    intro s hs c hc
    have hnil : s = [] := List.length_eq_zero.mp (Nat.le_zero.mp hs)
    subst hnil
    simp [chunks, chunksGo] at hc
  | succ n ih =>
    intro s hs c hc
    rw [chunks_unfold] at hc
    split at hc
    · simp at hc
    · split at hc
      · rw [List.mem_singleton] at hc
        subst hc
        exact Nat.le_trans (by assumption) (Nat.le_succ _)
      · rcases List.mem_cons.mp hc with h1 | h2
        · subst h1
          exact Nat.le_trans (List.length_take_le _ _) (splitIndexOf_le s)
        · have hne : s ≠ [] := by
            intro hnil
            subst hnil
            exact (by assumption : ¬([] : Text).isEmpty = true) rfl
          have hrem := chunks_remainder_len hne
          exact ih (trimJS (s.drop (splitIndexOf s))) (by omega) c h2

theorem chunksFlatten_aux : ∀ (n : Nat) (s : Text), s.length ≤ n →
    List.Sublist (chunks s).flatten s ∧
      (chunks s).flatten.filter (fun c => !jsWhitespace c) =
        s.filter (fun c => !jsWhitespace c) := by
  intro n
  induction n with
  | zero =>
    intro s hs
    have hnil : s = [] := List.length_eq_zero.mp (Nat.le_zero.mp hs)
    subst hnil
    exact ⟨List.nil_sublist _, rfl⟩
  | succ n ih =>
    intro s hs
    rw [chunks_unfold]
    split
    · have hnil : s = [] := List.isEmpty_iff.mp (by assumption)
      subst hnil
      exact ⟨List.nil_sublist _, rfl⟩
    · split
      · constructor
        · simp
        · simp
      · have hne : s ≠ [] := by
          intro hnil
          subst hnil
          simp [MAX_CHARS] at *
        have hrem := chunks_remainder_len hne
        obtain ⟨ihs, ihf⟩ := ih (trimJS (s.drop (splitIndexOf s))) (by omega)
        constructor
        · have h1 : List.Sublist (chunks (trimJS (s.drop (splitIndexOf s)))).flatten
              (s.drop (splitIndexOf s)) := ihs.trans (trimJS_sublist _)
          have h2 := h1.append_left (s.take (splitIndexOf s))
          rw [List.take_append_drop] at h2
          simpa using h2
        · simp only [List.flatten_cons, List.filter_append]
          rw [ihf, filter_trimJS, ← List.filter_append, List.take_append_drop]

/-! Facts about the first counterexample text. -/

theorem mem_of_head?_eq {α : Type} {a : α} {l : List α} (h : l.head? = some a) :
    a ∈ l := by
  cases l with
  | nil => cases h
  | cons b l =>
    simp only [List.head?_cons, Option.some.injEq] at h
    rw [← h]
    exact List.mem_cons_self b l

theorem drop_append_len {α : Type} (l₁ l₂ : List α) (n : Nat) :
    (l₁ ++ l₂).drop (l₁.length + n) = l₂.drop n := by
  induction l₁ with
  | nil => simp
  | cons a l ih =>
    simp only [List.cons_append, List.length_cons]
    rw [show l.length + 1 + n = (l.length + n) + 1 by omega]
    rw [List.drop_succ_cons]
    exact ih

theorem cexText1_length : cexText1.length = MAX_CHARS + 1 := by
  simp [cexText1]

theorem mem_cexText1 {c : Char} (h : c ∈ cexText1) : c = 'a' ∨ c = '\n' := by
  rcases List.mem_append.mp h with h1 | h1
  · exact Or.inl (List.eq_of_mem_replicate h1)
  · exact Or.inr (List.mem_singleton.mp h1)

theorem drop_ceiling_cexText1 : cexText1.drop MAX_CHARS = ['\n'] := by
  unfold cexText1
  exact List.drop_left' (List.length_replicate MAX_CHARS 'a')

theorem cexText1_ne_nil : cexText1 ≠ [] := by
  intro h
  have hl := congrArg List.length h
  rw [cexText1_length] at hl
  simp at hl

theorem boundaryIndex_cexText1 : boundaryIndex cexText1 = some MAX_CHARS := by
  have hdot : lastIndexOfFrom cexText1 ['.', ' '] MAX_CHARS = none :=
    lastIndexOfFrom_none_of_not_mem
      (fun hmem => by rcases mem_cexText1 hmem with h | h <;> exact absurd h (by decide)) _
  have hq : lastIndexOfFrom cexText1 ['?', ' '] MAX_CHARS = none :=
    lastIndexOfFrom_none_of_not_mem
      (fun hmem => by rcases mem_cexText1 hmem with h | h <;> exact absurd h (by decide)) _
  have hbang : lastIndexOfFrom cexText1 ['!', ' '] MAX_CHARS = none :=
    lastIndexOfFrom_none_of_not_mem
      (fun hmem => by rcases mem_cexText1 hmem with h | h <;> exact absurd h (by decide)) _
  have hnl : lastIndexOfFrom cexText1 ['\n'] MAX_CHARS = some MAX_CHARS := by
    apply lastIndexOfFrom_eq_some_of (Nat.le_refl _)
    · rw [drop_ceiling_cexText1]
      decide
    · intro k hk1 hk2
      omega
  exact boundaryIndex_eq_newline cexText1 MAX_CHARS hdot hq hbang hnl

theorem splitIndexOf_cexText1 : splitIndexOf cexText1 = MAX_CHARS + 1 :=
  splitIndexOf_eq_of_ge cexText1 MAX_CHARS boundaryIndex_cexText1 (by decide)

theorem chunks_cexText1 : chunks cexText1 = [cexText1] := by
  rw [chunks_unfold]
  rw [if_neg (by rw [List.isEmpty_eq_true]; exact cexText1_ne_nil),
    if_neg (by rw [cexText1_length]; decide)]
  rw [splitIndexOf_cexText1]
  rw [List.take_of_length_le (by rw [cexText1_length]),
    List.drop_eq_nil_of_le (by rw [cexText1_length])]
  rfl

/-! Facts about the second counterexample text. -/

theorem cexText2_decomp :
    cexText2 = ('a' :: '.' :: ' ' :: List.replicate 447 'b') ++
      (' ' :: List.replicate 3700 'c') := rfl

theorem cexText2_length : cexText2.length = 4151 := by
  rw [cexText2_decomp]
  simp only [List.length_append, List.length_cons, List.length_replicate]

theorem not_dot_mem_drop2_cexText2 : '.' ∉ cexText2.drop 2 := by
  have h : cexText2.drop 2 =
      ' ' :: (List.replicate 447 'b' ++ ' ' :: List.replicate 3700 'c') := rfl
  rw [h]
  intro hmem
  rcases List.mem_cons.mp hmem with h1 | h1
  · exact absurd h1 (by decide)
  · rcases List.mem_append.mp h1 with h2 | h2
    · exact absurd (List.eq_of_mem_replicate h2) (by decide)
    · rcases List.mem_cons.mp h2 with h3 | h3
      · exact absurd h3 (by decide)
      · exact absurd (List.eq_of_mem_replicate h3) (by decide)

theorem dotIdx_cexText2 : lastIndexOfFrom cexText2 ['.', ' '] MAX_CHARS = some 1 := by
  apply lastIndexOfFrom_eq_some_of (by decide)
  · rfl
  · intro k hk1 hk2
    cases h : List.isPrefixOf ['.', ' '] (cexText2.drop k) with
    | false => rfl
    | true =>
      exfalso
      have hh := isPrefixOf_cons_head h
      rw [show k = 2 + (k - 2) by omega, ← List.drop_drop] at hh
      exact not_dot_mem_drop2_cexText2
        (List.mem_of_mem_drop (mem_of_head?_eq hh))

theorem boundaryIndex_cexText2 : boundaryIndex cexText2 = some 1 :=
  boundaryIndex_eq_dot cexText2 1 dotIdx_cexText2

theorem splitIndexOf_cexText2 : splitIndexOf cexText2 = MAX_CHARS :=
  splitIndexOf_eq_of_lt cexText2 1 boundaryIndex_cexText2 (by decide)

theorem cexText2_ne_nil : cexText2 ≠ [] := by
  intro h
  have hl := congrArg List.length h
  rw [cexText2_length] at hl
  simp at hl

theorem chunksHead_cexText2 :
    (chunks cexText2).head? = some (cexText2.take MAX_CHARS) := by
  rw [chunks_unfold]
  rw [if_neg (by rw [List.isEmpty_eq_true]; exact cexText2_ne_nil),
    if_neg (by rw [cexText2_length]; decide)]
  rw [splitIndexOf_cexText2]
  rfl

theorem drop450_cexText2 : cexText2.drop 450 = ' ' :: List.replicate 3700 'c' := by
  rw [cexText2_decomp]
  exact List.drop_left' (by simp only [List.length_cons, List.length_replicate])

theorem boundary450_cexText2 : isBoundaryTokenAt cexText2 450 = true := by
  unfold isBoundaryTokenAt
  rw [drop450_cexText2]
  decide

theorem drop3999_cexText2 : cexText2.drop 3999 = 'c' :: List.replicate 151 'c' := by
  rw [cexText2_decomp]
  have h1 := drop_append_len ('a' :: '.' :: ' ' :: List.replicate 447 'b')
    (' ' :: List.replicate 3700 'c') 3549
  simp only [List.length_cons, List.length_replicate] at h1
  rw [show (447 : Nat) + 1 + 1 + 1 + 3549 = 3999 from rfl] at h1
  rw [h1]
  rw [show (3549 : Nat) = 3548 + 1 from rfl, List.drop_succ_cons]
  rw [show (3700 : Nat) = 3548 + 152 from rfl, ← List.append_replicate_replicate]
  rw [List.drop_left' (List.length_replicate 3548 'c')]
  rfl

theorem boundary3999_cexText2 : isBoundaryTokenAt cexText2 3999 = false := by
  unfold isBoundaryTokenAt
  rw [drop3999_cexText2]
  decide

theorem get3999_cexText2 : cexText2[3999]? = some 'c' := by
  have h := List.getElem?_drop cexText2 3999 0
  rw [drop3999_cexText2] at h
  simp only [Nat.add_zero] at h
  rw [← h, List.getElem?_cons_zero]

theorem get4000_cexText2 : cexText2[4000]? = some 'c' := by
  have h := List.getElem?_drop cexText2 3999 1
  rw [drop3999_cexText2] at h
  rw [show (3999 : Nat) + 1 = 4000 from rfl] at h
  rw [← h]
  rw [show (151 : Nat) = 150 + 1 from rfl, List.replicate_succ]
  rw [List.getElem?_cons_succ, List.getElem?_cons_zero]

/-! Claim C1. -/

/-- C1 counterexample: on 4000 letters followed by a newline the splitting
loop finds the newline boundary exactly at the ceiling offset, includes it
in the chunk, and emits a single chunk of length 4001, exceeding the 4000
ceiling.  This refutes the claim that every chunk has length at most the
ceiling. -/
theorem chunk_exceeds_ceiling_cex :
    chunks cexText1 = [cexText1] ∧ cexText1.length = MAX_CHARS + 1 :=
  ⟨chunks_cexText1, cexText1_length⟩

/-- C1 (amended): every chunk produced by the splitting loop of
generateSpeechFromText has length at most MAX_CHARS + 1 = 4001; the
ceiling can be exceeded by exactly the one included boundary character,
when a preferred boundary starts exactly at the ceiling offset. -/
theorem chunk_length_le_ceiling_succ (text : Text) :
    ∀ c ∈ chunks text, c.length ≤ MAX_CHARS + 1 :=
  chunkLen_aux text.length text (Nat.le_refl _)

/-- Witness for the amended C1 bound at a concrete one-letter text. -/
theorem chunk_length_le_ceiling_succ_witness :
    (['a'] : Text).length ≤ MAX_CHARS + 1 :=
  chunk_length_le_ceiling_succ ['a'] ['a'] (by decide)

/-! Claim C2. -/

/-- C2 counterexample: in cexText2 a space boundary token occurs at
position 450, inside the allowed window from one tenth of the ceiling
(400) up to the ceiling offset, yet the loop hard-chops at the ceiling:
the chosen split index is exactly MAX_CHARS, no boundary token starts at
the final position of the emitted chunk, and the characters on both
sides of the cut are the letter c, so the cut is strictly inside a word.
The reason is that the search chain stops at the first pattern that
occurs at all: the period-space boundary is found at position 1, is
rejected as too early, and the lower-priority space boundary at 450 is
never consulted. -/
theorem hard_cut_despite_boundary_cex :
    MAX_CHARS < cexText2.length ∧
    isBoundaryTokenAt cexText2 450 = true ∧
    MAX_CHARS / 10 ≤ 450 ∧ 450 ≤ MAX_CHARS ∧
    splitIndexOf cexText2 = MAX_CHARS ∧
    (chunks cexText2).head? = some (cexText2.take MAX_CHARS) ∧
    isBoundaryTokenAt cexText2 3999 = false ∧
    cexText2[3999]? = some 'c' ∧ cexText2[4000]? = some 'c' := by
  refine ⟨?_, boundary450_cexText2, by decide, by decide,
    splitIndexOf_cexText2, chunksHead_cexText2, boundary3999_cexText2,
    get3999_cexText2, get4000_cexText2⟩
  rw [cexText2_length]
  decide

/-- C2 (amended): the boundary guarantee holds for the winner of the
priority chain, not for an arbitrary in-window boundary token: whenever
the chain (period-space, question-space, exclamation-space, newline,
comma-space, space, each searched up to the ceiling offset) returns a
position no earlier than one tenth of the ceiling, the iteration splits
right after that position, and a boundary token does start there. -/
theorem split_at_chain_boundary (s : Text) (i : Nat)
    (hlen : MAX_CHARS < s.length) (hb : boundaryIndex s = some i)
    (hge : MAX_CHARS / 10 ≤ i) :
    (chunks s).head? = some (s.take (i + 1)) ∧ isBoundaryTokenAt s i = true := by
  constructor
  · rw [chunks_unfold]
    have hne : ¬s.isEmpty = true := by
      rw [List.isEmpty_eq_true]
      intro h
      rw [h] at hlen
      simp [MAX_CHARS] at hlen
    rw [if_neg hne, if_neg (by omega)]
    rw [splitIndexOf_eq_of_ge s i hb hge]
    rfl
  · exact boundaryIndex_matches hb

/-- Witness for the amended C2 statement on the first counterexample
text, whose chain winner is the newline at the ceiling offset. -/
theorem split_at_chain_boundary_witness :
    (chunks cexText1).head? = some (cexText1.take (MAX_CHARS + 1)) ∧
      isBoundaryTokenAt cexText1 MAX_CHARS = true :=
  split_at_chain_boundary cexText1 MAX_CHARS
    (Nat.lt_of_lt_of_eq (Nat.lt_succ_self MAX_CHARS) cexText1_length.symm)
    boundaryIndex_cexText1 (by decide)

/-! Claim C3. -/

/-- C3: concatenating the chunks produced by the splitting loop, in
order, yields a subsequence of the original text that retains exactly
its non-whitespace characters in their original order: only whitespace
dropped by the trim at chunk boundaries can be lost. -/
theorem chunks_flatten_preserves_content (text : Text) :
    List.Sublist (chunks text).flatten text ∧
      (chunks text).flatten.filter (fun c => !jsWhitespace c) =
        text.filter (fun c => !jsWhitespace c) :=
  chunksFlatten_aux text.length text (Nat.le_refl _)

/-! Claim C4. -/

/-- C4: on empty input text, generateSpeechFromText returns an empty
binary result immediately (declared audio/mp3, as the source writes it)
and the trace of issued calls is empty: no call reaches the request
helper. -/
theorem generateSpeech_empty_text {ε : Type} (fetch : Text → Except ε (List Nat)) :
    generateSpeechFromText fetch [] =
      ([], Except.ok { bytes := [], type := "audio/mp3" }) := rfl

/-! Claim C5. -/

theorem dispatchChunks_error_aux {ε : Type} (fetch : Text → Except ε (List Nat)) :
    ∀ (cs good : List Text) (bad : Text) (rest : List Text) (e : ε),
      cs.filter (fun c => !(trimJS c).isEmpty) = good ++ bad :: rest →
      (∀ c ∈ good, ∃ part, fetch c = Except.ok part) →
      fetch bad = Except.error e →
      dispatchChunks fetch cs = (good ++ [bad], Except.error e) := by
  intro cs
  induction cs with
  | nil =>
    intro good bad rest e hsplit _ _
    have hlen := congrArg List.length hsplit
    simp at hlen
    omega
  | cons c cs ih =>
    intro good bad rest e hsplit hgood hbad
    cases hc : (trimJS c).isEmpty with
    | true =>
      simp only [List.filter_cons, hc, Bool.not_true, Bool.false_eq_true,
        if_false] at hsplit
      simp only [dispatchChunks, hc, if_true]
      exact ih good bad rest e hsplit hgood hbad
    | false =>
      simp only [List.filter_cons, hc, Bool.not_false, if_true] at hsplit
      cases good with
      | nil =>
        simp only [List.nil_append, List.cons.injEq] at hsplit
        obtain ⟨h1, _⟩ := hsplit
        subst h1
        simp [dispatchChunks, hc, hbad]
      | cons g good2 =>
        simp only [List.cons_append, List.cons.injEq] at hsplit
        obtain ⟨h1, h2⟩ := hsplit
        subst h1
        obtain ⟨part, hpart⟩ := hgood c (List.mem_cons_self c good2)
        have hrec := ih good2 bad rest e h2
          (fun x hx => hgood x (List.mem_cons_of_mem c hx)) hbad
        simp [dispatchChunks, hc, hpart, hrec]

/-- C5: if the call for some dispatched chunk fails while every earlier
dispatched chunk succeeded, then generateSpeechFromText fails with that
very error: no blob is returned, and the trace of issued calls stops at
the failing chunk, so no later chunk is dispatched. -/
theorem generateSpeech_error_propagates {ε : Type}
    (fetch : Text → Except ε (List Nat)) (text : Text)
    (good : List Text) (bad : Text) (rest : List Text) (e : ε)
    (hsplit : (chunks text).filter (fun c => !(trimJS c).isEmpty) =
      good ++ bad :: rest)
    (hgood : ∀ c ∈ good, ∃ part, fetch c = Except.ok part)
    (hbad : fetch bad = Except.error e)
    (htext : ¬text.isEmpty) :
    generateSpeechFromText fetch text = (good ++ [bad], Except.error e) := by
  unfold generateSpeechFromText
  rw [if_neg htext]
  rw [dispatchChunks_error_aux fetch (chunks text) good bad rest e hsplit
    hgood hbad]

/-- Witness for C5 on a concrete two-letter text whose single chunk
fails. -/
theorem generateSpeech_error_propagates_witness :
    generateSpeechFromText (fun _ => Except.error "boom") ['h', 'i'] =
      ([['h', 'i']], Except.error "boom") :=
  generateSpeech_error_propagates (fun _ => Except.error "boom") ['h', 'i']
    [] ['h', 'i'] [] "boom" (by decide) (by simp) rfl (by decide)

/-! Claim C10. -/

/-- C10: the declared MIME type of the blob returned by
generateSpeechFromText is not fixed: the empty-text early return carries
audio/mp3, while every blob returned for a non-empty text carries
audio/mpeg. -/
theorem generateSpeech_mime_types {ε : Type} (fetch : Text → Except ε (List Nat)) :
    generateSpeechFromText fetch [] =
      ([], Except.ok { bytes := [], type := "audio/mp3" }) ∧
    ∀ text, text ≠ [] → ∀ tr b,
      generateSpeechFromText fetch text = (tr, Except.ok b) →
      b.type = "audio/mpeg" := by
  constructor
  · rfl
  · intro text htext tr b h
    unfold generateSpeechFromText at h
    rw [if_neg (by simpa using htext)] at h
    rcases hd : dispatchChunks fetch (chunks text) with ⟨trace, res⟩
    rw [hd] at h
    cases res with
    | error e => simp at h
    | ok parts =>
      simp only [Prod.mk.injEq] at h
      obtain ⟨_, h2⟩ := h
      injection h2 with h3
      rw [← h3]

/-- Witness for C10 on a concrete non-empty text whose single call
succeeds. -/
theorem generateSpeech_mime_types_witness :
    (Blob.mk [7] "audio/mpeg").type = "audio/mpeg" :=
  (generateSpeech_mime_types
      (fun _ => (Except.ok [7] : Except String (List Nat)))).2 ['h', 'i']
    (by decide) [['h', 'i']] (Blob.mk [7] "audio/mpeg") rfl

/-! Claim C9. -/

/-- C9: sendMessageToChat appends the user message to the history before
the call is issued (the sent message list already contains it); on
success exactly the user turn and the assistant turn are appended and
the assistant text is returned, while on any failure the history keeps
the already-appended user turn (the session is not rolled back) and the
placeholder error string is returned instead of a raised failure. -/
theorem sendMessageToChat_appends {ε : Type}
    (api : List ChatMessage → Except ε (Option String))
    (chat : ChatSession) (message : String) :
    (∀ e, api (sentMessages chat message) = Except.error e →
      sendMessageToChat api chat message =
        ({ messages := chat.messages ++ [⟨"user", message⟩],
           systemPrompt := chat.systemPrompt }, chatErrorMessage)) ∧
    (∀ c, api (sentMessages chat message) = Except.ok c →
      sendMessageToChat api chat message =
        ({ messages := chat.messages ++
             [⟨"user", message⟩, ⟨"assistant", extractAssistant c⟩],
           systemPrompt := chat.systemPrompt }, extractAssistant c)) := by
  have key : sendMessageToChat api chat message =
      match api (sentMessages chat message) with
      | Except.error _ =>
        ({ messages := chat.messages ++ [⟨"user", message⟩],
           systemPrompt := chat.systemPrompt }, chatErrorMessage)
      | Except.ok c =>
        ({ messages := (chat.messages ++ [⟨"user", message⟩]) ++
             [⟨"assistant", extractAssistant c⟩],
           systemPrompt := chat.systemPrompt }, extractAssistant c) := rfl
  constructor
  · intro e he
    rw [key, he]
  · intro c hc
    rw [key, hc]
    simp

/-- Witness for C9 on a concrete failing call: the user turn stays in
the session and the placeholder is returned. -/
theorem sendMessageToChat_appends_witness :
    sendMessageToChat (fun _ => Except.error "down") (ChatSession.mk [] "p") "hi" =
      (ChatSession.mk [ChatMessage.mk "user" "hi"] "p", chatErrorMessage) :=
  (sendMessageToChat_appends (fun _ => Except.error "down")
    (ChatSession.mk [] "p") "hi").1 "down" rfl

/-! Claim C6. -/

theorem apiErrorMessage_head (s : Nat) : (apiErrorMessage s).head? = some 'O' := rfl

theorem timeoutMessage_head : timeoutMessage.head? = some 'R' := rfl

theorem apiErrorMessage_ne_timeout (s : Nat) :
    apiErrorMessage s ≠ timeoutMessage := by
  intro h
  have h1 := apiErrorMessage_head s
  rw [h, timeoutMessage_head] at h1
  exact absurd h1 (by decide)

/-- C6: when the wait duration elapses the aborted attempt fails with the
dedicated timeout message; that message differs from the generic status
message for every status, a non-success response can only produce it if
the remote itself reported exactly that text, and every other fetch
rejection is re-raised with its own message unchanged, so the timeout
failure is distinguishable both from remote-reported status failures and
from generic network failures. -/
theorem openaiRequest_timeout_message :
    openaiRequest FetchOutcome.aborted = Except.error timeoutMessage ∧
    (∀ s : Nat, apiErrorMessage s ≠ timeoutMessage) ∧
    (∀ (s : Nat) (em : Option Text), remoteErrorMessage s em = timeoutMessage →
      em = some timeoutMessage) ∧
    (∀ m : Text, openaiRequest (FetchOutcome.failed m) = Except.error m) := by
  refine ⟨rfl, apiErrorMessage_ne_timeout, ?_, fun m => rfl⟩
  intro s em h
  cases em with
  | none => exact absurd h (apiErrorMessage_ne_timeout s)
  | some m =>
    simp only [remoteErrorMessage] at h
    split at h
    · exact absurd h (apiErrorMessage_ne_timeout s)
    · rw [h]

/-- Witness for C6 at status 404 and at the one colliding remote
message. -/
theorem openaiRequest_timeout_message_witness :
    openaiRequest FetchOutcome.aborted = Except.error timeoutMessage ∧
      apiErrorMessage 404 ≠ timeoutMessage ∧
      (some timeoutMessage : Option Text) = some timeoutMessage :=
  ⟨openaiRequest_timeout_message.1,
    openaiRequest_timeout_message.2.1 404,
    openaiRequest_timeout_message.2.2.1 404 (some timeoutMessage) rfl⟩

/-! Claims C7 and C8. -/

theorem wav_decomp (data : List ℚ) (sr : Nat) :
    float32ArrayToWav data sr =
      wavHeaderBytes data.length sr ++ (data.map sampleBytes).flatten := by
  unfold float32ArrayToWav wavHeaderBytes
  simp [List.append_assoc]

theorem wavHeaderBytes_length (n sr : Nat) : (wavHeaderBytes n sr).length = 44 := rfl

theorem leVal_le32 (n : Nat) : leVal (le32 n) = n % 4294967296 := by
  simp only [le32, leVal]
  omega

theorem leVal_le16 (n : Nat) : leVal (le16 n) = n % 65536 := by
  simp only [le16, leVal]
  omega

set_option maxHeartbeats 2000000 in
/-- C7: for N samples at sample rate 16000, the container assembled by
float32ArrayToWav declares, in its little-endian header fields, a RIFF
total size of 36 + 2N at offset 4, PCM format 1 at offset 20, one
channel at offset 22, 16 bits per sample at offset 34, and a data-chunk
size of 2N at offset 40. -/
theorem wav_header_fields (data : List ℚ)
    (h : 36 + 2 * data.length < 4294967296) :
    readLE32 (float32ArrayToWav data 16000) 4 = 36 + 2 * data.length ∧
    readLE16 (float32ArrayToWav data 16000) 20 = 1 ∧
    readLE16 (float32ArrayToWav data 16000) 22 = 1 ∧
    readLE16 (float32ArrayToWav data 16000) 34 = 16 ∧
    readLE32 (float32ArrayToWav data 16000) 40 = 2 * data.length := by
  rw [wav_decomp]
  have e4 : readLE32 (wavHeaderBytes data.length 16000 ++
      (data.map sampleBytes).flatten) 4 = leVal (le32 (36 + data.length * 2)) := rfl
  have e20 : readLE16 (wavHeaderBytes data.length 16000 ++
      (data.map sampleBytes).flatten) 20 = leVal (le16 1) := rfl
  have e22 : readLE16 (wavHeaderBytes data.length 16000 ++
      (data.map sampleBytes).flatten) 22 = leVal (le16 1) := rfl
  have e34 : readLE16 (wavHeaderBytes data.length 16000 ++
      (data.map sampleBytes).flatten) 34 = leVal (le16 16) := rfl
  have e40 : readLE32 (wavHeaderBytes data.length 16000 ++
      (data.map sampleBytes).flatten) 40 = leVal (le32 (data.length * 2)) := rfl
  rw [e4, e20, e22, e34, e40, leVal_le32, leVal_le32, leVal_le16, leVal_le16]
  refine ⟨by omega, by omega, by omega, by omega, by omega⟩

/-- Witness for C7 at a concrete three-sample input. -/
theorem wav_header_fields_witness :
    readLE32 (float32ArrayToWav [0, 0, 0] 16000) 4 = 36 + 2 * ([0, 0, 0] : List ℚ).length ∧
    readLE16 (float32ArrayToWav [0, 0, 0] 16000) 20 = 1 ∧
    readLE16 (float32ArrayToWav [0, 0, 0] 16000) 22 = 1 ∧
    readLE16 (float32ArrayToWav [0, 0, 0] 16000) 34 = 16 ∧
    readLE32 (float32ArrayToWav [0, 0, 0] 16000) 40 = 2 * ([0, 0, 0] : List ℚ).length :=
  wav_header_fields [0, 0, 0] (by decide)

theorem sampleBytes_length (x : ℚ) : (sampleBytes x).length = 2 := rfl

theorem flatten_sampleBytes_drop : ∀ (data : List ℚ) (i : Nat), i < data.length →
    ((data.map sampleBytes).flatten).drop (2 * i) =
      sampleBytes (data.getD i 0) ++ ((data.drop (i + 1)).map sampleBytes).flatten := by
  intro data
  induction data with
  | nil => intro i hi; simp at hi
  | cons d ds ih =>
    intro i hi
    cases i with
    | zero => simp
    | succ i =>
      simp only [List.map_cons, List.flatten_cons]
      rw [show 2 * (i + 1) = (sampleBytes d).length + 2 * i from by
        rw [sampleBytes_length]; omega]
      rw [drop_append_len]
      simp only [List.getD_cons_succ, List.drop_succ_cons]
      exact ih i (by simpa using hi)

theorem intSampleOf_bounds (x : ℚ) :
    -32768 ≤ intSampleOf x ∧ intSampleOf x ≤ 32767 := by
  have hs1 : (-1 : ℚ) ≤ clampSample x := le_max_left _ _
  have hs2 : clampSample x ≤ 1 := max_le (by norm_num) (min_le_left _ _)
  simp only [intSampleOf]
  by_cases hneg : clampSample x < 0
  · rw [if_pos hneg]
    have hq1 : (-32768 : ℚ) ≤ clampSample x * 32768 := by nlinarith
    have hq2 : clampSample x * 32768 < 0 :=
      mul_neg_of_neg_of_pos hneg (by norm_num)
    unfold ratTrunc
    rw [if_neg (not_le.mpr hq2)]
    constructor
    · have hle := Int.le_ceil (clampSample x * 32768)
      have : (-32768 : ℚ) ≤ (⌈clampSample x * 32768⌉ : ℚ) := le_trans hq1 hle
      exact_mod_cast this
    · have h0 : ⌈clampSample x * 32768⌉ ≤ 0 :=
        Int.ceil_le.mpr (by exact_mod_cast le_of_lt hq2)
      omega
  · rw [if_neg hneg]
    push_neg at hneg
    have hq1 : (0 : ℚ) ≤ clampSample x * 32767 := mul_nonneg hneg (by norm_num)
    have hq2 : clampSample x * 32767 ≤ 32767 := by nlinarith
    unfold ratTrunc
    rw [if_pos hq1]
    constructor
    · have h0 : (0 : Int) ≤ ⌊clampSample x * 32767⌋ :=
        Int.le_floor.mpr (by exact_mod_cast hq1)
      omega
    · have hf := Int.floor_le (clampSample x * 32767)
      have : (⌊clampSample x * 32767⌋ : ℚ) ≤ 32767 := le_trans hf hq2
      exact_mod_cast this

/-- C8: the two bytes stored for sample i, at offsets 44 + 2i and
45 + 2i, are the little-endian two-complement encoding of the 16-bit
integer obtained by clamping the sample to the range -1 to 1 and scaling
it into the signed 16-bit domain (by 0x8000 for negative values and
0x7FFF otherwise, then truncating); the stored value always fits the
signed 16-bit range. -/
theorem wav_sample_encoding (data : List ℚ) (sr i : Nat) (h : i < data.length) :
    readInt16LE (float32ArrayToWav data sr) (44 + 2 * i) =
      intSampleOf (data.getD i 0) ∧
    -32768 ≤ intSampleOf (data.getD i 0) ∧
      intSampleOf (data.getD i 0) ≤ 32767 := by
  obtain ⟨hb1, hb2⟩ := intSampleOf_bounds (data.getD i 0)
  refine ⟨?_, hb1, hb2⟩
  have hdrop : (float32ArrayToWav data sr).drop (44 + 2 * i) =
      sampleBytes (data.getD i 0) ++
        ((data.drop (i + 1)).map sampleBytes).flatten := by
    rw [wav_decomp,
      show (44 : Nat) + 2 * i = (wavHeaderBytes data.length sr).length + 2 * i
        from by rw [wavHeaderBytes_length],
      drop_append_len, flatten_sampleBytes_drop data i h]
  have hval : readLE16 (float32ArrayToWav data sr) (44 + 2 * i) =
      ((intSampleOf (data.getD i 0)) % 65536).toNat := by
    unfold readLE16
    rw [hdrop, List.take_left' (sampleBytes_length _)]
    unfold sampleBytes
    rw [leVal_le16]
    omega
  unfold readInt16LE
  rw [hval]
  split <;> omega

/-- Witness for C8 at a concrete one-sample input. -/
theorem wav_sample_encoding_witness :
    readInt16LE (float32ArrayToWav [(1 : ℚ)] 16000) (44 + 2 * 0) =
      intSampleOf (([(1 : ℚ)] : List ℚ).getD 0 0) ∧
    -32768 ≤ intSampleOf (([(1 : ℚ)] : List ℚ).getD 0 0) ∧
      intSampleOf (([(1 : ℚ)] : List ℚ).getD 0 0) ≤ 32767 :=
  wav_sample_encoding [(1 : ℚ)] 16000 0 (by decide)

end EchoNote
